import Mathlib

/-!
# Verification of the pagination/cursor subsystem of go-pivotaltracker

Shallow embedding of the paginated-listing/iteration mechanism of the
`pivotal` package (stories.go, epics.go) together with the generic cursor
it delegates to.  The typed wrappers (`StoryService.List`, `StoryCursor.Next`,
`StoryService.Iterate`, `EpicService.Update`) are translated from the Go
source; the generic cursor (`newCursor`, `cursor.next`, `cursor.all`) is not
among the provided source files, so it is modelled from the specification's
description of the page-fetch primitive and the eager drain.

The HTTP transport collaborator (`Client.Do`) is abstracted as a function
from the request parameters (a call index, the offset and the limit the
cursor puts in the query string) to either an error or a page of items
together with the server-reported total.
-/

/-- Errors surfaced by the subsystem.  `eof` models the `io.EOF` sentinel
used by the lazy per-item interface; `transport n` models a network/HTTP or
decode failure (code `n`) propagated verbatim from the collaborator. -/
inductive Err : Type where
  | eof : Err
  | transport : Nat → Err
deriving DecidableEq, Repr

/-- One successful paginated response: the page of items in server order,
plus the total-item-count metadata the server reports alongside it. -/
structure PageResponse (α : Type) : Type where
  items : List α
  total : Nat
deriving DecidableEq, Repr

/-- The transport collaborator (`Client.Do` on a request produced by the
request-builder closure).  `fetch k off lim` is the response to the `k`-th
round trip issued by a cursor, carrying offset `off` and limit `lim` in the
query string.  The call index `k` lets a simulated server answer differently
on later calls (changing totals, failures on a given page). -/
structure Transport (α : Type) : Type where
  fetch : Nat → Nat → Nat → Except Err (PageResponse α)

/-- Modelled from the spec: the generic `cursor` of pagination.go (not under
the provided sources).  It holds the configured page-size limit (0 being the
fetch-all sentinel), the current zero-based offset, the total-item-count
estimate from the most recent response (`none` before any response), and the
number of transport calls issued so far (the call index fed to `Transport`).
The request-builder closure and client are absorbed into the `Transport`
argument of the operations. -/
structure cursor : Type where
  limit : Nat
  offset : Nat
  total : Option Nat
  calls : Nat
deriving DecidableEq, Repr

/-- Modelled from the spec: `newCursor(client, reqFunc, limit)` constructs a
cursor at offset 0 with no total estimate yet and no fetch performed. -/
def newCursor (limit : Nat) : cursor :=
  { limit := limit, offset := 0, total := none, calls := 0 }

/-- Modelled from the spec: the page-fetch round trip inside `cursor.next`.
Fetches one page at the cursor's offset with effective limit `lim`, then
advances `offset += limit` (or `offset += len(page)` when the configured
limit is the fetch-all sentinel 0) and refreshes the total estimate from the
response's metadata. -/
def cursor.fetchPage {α : Type} (t : Transport α) (c : cursor) (lim : Nat) :
    Except Err (List α × cursor) :=
  match t.fetch c.calls c.offset lim with
  | .error e => .error e
  | .ok r =>
      .ok (r.items,
        { c with
          offset := c.offset + (if c.limit = 0 then r.items.length else c.limit),
          total := some r.total,
          calls := c.calls + 1 })

/-- Modelled from the spec: the page-fetch primitive `cursor.next`.  With a
positive configured limit it fetches one page of that size.  With the
fetch-all sentinel 0 the effective limit is the server's reported total: on
the very first call an extra sizing request is issued to learn that total
(the "2 HTTP requests" of eager `List`), afterwards the latest total
estimate is used.  Transport errors are propagated unchanged. -/
def cursor.next {α : Type} (t : Transport α) (c : cursor) :
    Except Err (List α × cursor) :=
  if c.limit = 0 then
    match c.total with
    | none =>
        match t.fetch c.calls c.offset 0 with
        | .error e => .error e
        | .ok r =>
            cursor.fetchPage t
              { c with total := some r.total, calls := c.calls + 1 } r.total
    | some tot => cursor.fetchPage t c tot
  else
    cursor.fetchPage t c c.limit

/-- Modelled from the spec: the eager drain `cursor.all`, fuelled.
Repeatedly invokes the page-fetch primitive, appending each page to the
accumulator, until the offset reaches or exceeds the most recently observed
total.  `none` means the fuel ran out before the loop terminated; the first
error encountered is returned and the partial accumulation discarded. -/
def cursor.allAux {α : Type} (t : Transport α) :
    Nat → cursor → List α → Option (Except Err (List α × cursor))
  | 0, _, _ => none
  | fuel + 1, c, acc =>
      match cursor.next t c with
      | .error e => some (.error e)
      | .ok (page, c') =>
          if c'.total.getD 0 ≤ c'.offset then some (.ok (acc ++ page, c'))
          else cursor.allAux t fuel c' (acc ++ page)

/-- Modelled from the spec: `cursor.all` starting from an empty accumulator. -/
def cursor.all {α : Type} (t : Transport α) (fuel : Nat) (c : cursor) :
    Option (Except Err (List α × cursor)) :=
  cursor.allAux t fuel c []

/-- Number of items to fetch at once when getting paginated response
(stories.go). -/
def PageLimit : Nat := 10

namespace StoryService

/-- `StoryService.List` (stories.go): builds a cursor with the fetch-all
sentinel limit 0 and drains it; on any error it returns that error and no
items. -/
def List {α : Type} (t : Transport α) (fuel : Nat) :
    Option (Except Err (List α)) :=
  match cursor.all t fuel (newCursor 0) with
  | none => none
  | some (.error e) => some (.error e)
  | some (.ok (items, _)) => some (.ok items)

end StoryService

/-- `StoryCursor` (stories.go): the generic cursor plus a buffer of
fetched-but-not-yet-consumed typed items. -/
structure StoryCursor (α : Type) : Type where
  cur : cursor
  buff : List α
deriving DecidableEq, Repr

/-- `StoryCursor.Next` (stories.go): when the buffer is empty, refill it via
the generic page-fetch primitive, propagating any error with a nil item;
if the buffer is still empty, return `io.EOF`; otherwise pop and return the
front of the buffer.  The Go signature `(s *Story, err error)` is modelled
as the pair of an optional item and an optional error, together with the
updated cursor. -/
def StoryCursor.Next {α : Type} (t : Transport α) (c : StoryCursor α) :
    Option α × Option Err × StoryCursor α :=
  match c.buff with
  | [] =>
      match cursor.next t c.cur with
      | .error e => (none, some e, c)
      | .ok (page, cur') =>
          match page with
          | [] => (none, some Err.eof, { cur := cur', buff := [] })
          | x :: rest => (some x, none, { cur := cur', buff := rest })
  | x :: rest => (some x, none, { cur := c.cur, buff := rest })

namespace StoryService

/-- `StoryService.Iterate` (stories.go): builds a cursor with limit
`PageLimit` and wraps it in a typed cursor with an empty buffer. -/
def Iterate (α : Type) : StoryCursor α :=
  { cur := newCursor PageLimit, buff := [] }

end StoryService

/-- Driver for the lazy interface: call `Next` repeatedly, collecting items,
until end-of-sequence (`io.EOF`) or an error; fuelled, `none` meaning the
fuel ran out. -/
def drainStories {α : Type} (t : Transport α) :
    Nat → StoryCursor α → List α → Option (Except Err (List α))
  | 0, _, _ => none
  | fuel + 1, c, acc =>
      match StoryCursor.Next t c with
      | (_, some Err.eof, _) => some (.ok acc)
      | (_, some (Err.transport n), _) => some (.error (Err.transport n))
      | (some x, none, c') => drainStories t fuel c' (acc ++ [x])
      | (none, none, c') => drainStories t fuel c' acc

/-- A simulated honest server over a fixed collection: each fetch returns
the slice of the collection starting at the requested offset, truncated to
the requested limit, and reports the true total. -/
def honestTransport {α : Type} (items : List α) : Transport α :=
  ⟨fun _ off lim => .ok ⟨(items.drop off).take lim, items.length⟩⟩

/-- A simulated server that honours the requested offset but caps each
page at `caps k` items on the `k`-th call, reporting the true total: it
splits the collection into pages of size at most the cap. -/
def chunkTransport {α : Type} (items : List α) (caps : Nat → Nat) :
    Transport α :=
  ⟨fun k off lim => .ok ⟨(items.drop off).take (min lim (caps k)), items.length⟩⟩

/-- A probe server that records the offset and limit of each request as the
single item of the returned page, reporting a fixed total: it reveals what
request the cursor issues. -/
def probeTransport (total : Nat) : Transport (Nat × Nat) :=
  ⟨fun _ off lim => .ok ⟨[(off, lim)], total⟩⟩

/-- A simulated server whose reported total shrinks between calls: the
sizing call (call 0) reports a total of 25, while every later page call
serves a 20-item collection in pages of 10 and reports a total of 20. -/
def shrinkingTotalTransport : Transport Nat :=
  ⟨fun k off _ =>
    if k = 0 then .ok ⟨[], 25⟩
    else .ok ⟨((List.range 20).drop off).take 10, 20⟩⟩

/-- A simulated server over a 20-item collection whose sizing call and
first page call (10 items) succeed, and whose second page call fails with
a transport error. -/
def failSecondPageTransport : Transport Nat :=
  ⟨fun k off _ =>
    if k = 0 then .ok ⟨[], 20⟩
    else if k = 1 then .ok ⟨((List.range 20).drop off).take 10, 20⟩
    else .error (Err.transport 7)⟩

namespace EpicService

/-- `EpicService.Update` (epics.go): the URL path the PUT request is built
against, `fmt.Sprintf("projects/%v/stories/%v", projectID, epicID)`. -/
def UpdatePath (projectID epicID : Int) : String :=
  "projects/" ++ toString projectID ++ "/stories/" ++ toString epicID

end EpicService

/-- C9: for every projectID and epicID, `EpicService.Update` builds its
request against the path `projects/<projectID>/stories/<epicID>` — the
stories endpoint — and not against an epics endpoint path. -/
theorem c9_epic_update_uses_stories_path (projectID epicID : Int) :
    EpicService.UpdatePath projectID epicID =
      "projects/" ++ toString projectID ++ "/stories/" ++ toString epicID ∧
    EpicService.UpdatePath projectID epicID ≠
      "projects/" ++ toString projectID ++ "/epics/" ++ toString epicID := by
  refine ⟨rfl, fun h => ?_⟩
  have hl := congrArg String.length h
  simp only [EpicService.UpdatePath, String.length_append] at hl
  rw [show ("/stories/" : String).length = 9 from rfl,
      show ("/epics/" : String).length = 7 from rfl] at hl
  omega

/-- C10: every call to the typed cursor's `Next` returns an item exactly
when it returns no error (`io.EOF` included): the item / end-of-sequence /
error outcomes are mutually exclusive, and one of them always occurs. -/
theorem c10_next_outcomes_exclusive {α : Type} (t : Transport α)
    (c : StoryCursor α) :
    (StoryCursor.Next t c).1.isSome ↔ (StoryCursor.Next t c).2.1 = none := by
  obtain ⟨cur, buff⟩ := c
  cases buff with
  | nil =>
      cases h : cursor.next t cur with
      | error e => simp [StoryCursor.Next, h]
      | ok pc =>
          obtain ⟨page, cur'⟩ := pc
          cases page <;> simp [StoryCursor.Next, h]
  | cons x rest => simp [StoryCursor.Next]

/-- C5: when the typed cursor's buffer is non-empty, `Next` pops and
returns the front item with no error, leaves the generic cursor untouched,
and performs no I/O: its result does not depend on the transport at all. -/
theorem c5_nonempty_buffer_pops_front {α : Type} (t t' : Transport α)
    (c : StoryCursor α) (x : α) (rest : List α) (h : c.buff = x :: rest) :
    StoryCursor.Next t c = (some x, none, ⟨c.cur, rest⟩) ∧
    StoryCursor.Next t c = StoryCursor.Next t' c := by
  obtain ⟨cur, buff⟩ := c
  simp only at h
  subst h
  exact ⟨rfl, rfl⟩

/-- Witness for C5 at a concrete cursor with buffer `[5, 7]` and two
different transports. -/
theorem c5_witness :
    StoryCursor.Next (honestTransport ([] : List Nat))
        ⟨newCursor PageLimit, [5, 7]⟩ =
      (some 5, none, ⟨newCursor PageLimit, [7]⟩) ∧
    StoryCursor.Next (honestTransport ([] : List Nat))
        ⟨newCursor PageLimit, [5, 7]⟩ =
      StoryCursor.Next (chunkTransport ([] : List Nat) (fun _ => 1))
        ⟨newCursor PageLimit, [5, 7]⟩ :=
  c5_nonempty_buffer_pops_front _ _ _ 5 [7] rfl

/-- C6: when the buffer is empty and the refill succeeds with zero new
items, `Next` signals end-of-sequence via the `io.EOF` sentinel, which is
distinguishable from every transport failure. -/
theorem c6_empty_refill_signals_eof {α : Type} (t : Transport α)
    (c : StoryCursor α) (cur' : cursor) (hb : c.buff = [])
    (hn : cursor.next t c.cur = .ok ([], cur')) :
    StoryCursor.Next t c = (none, some Err.eof, ⟨cur', []⟩) ∧
    ∀ n, Err.eof ≠ Err.transport n := by
  obtain ⟨cur, buff⟩ := c
  simp only at hb hn
  subst hb
  refine ⟨?_, fun n h => Err.noConfusion h⟩
  simp [StoryCursor.Next, hn]

/-- Witness for C6: a fresh `Iterate` cursor over an empty collection. -/
theorem c6_witness :
    StoryCursor.Next (honestTransport ([] : List Nat))
        (StoryService.Iterate Nat) =
      (none, some Err.eof, ⟨⟨10, 10, some 0, 1⟩, []⟩) ∧
    ∀ n, Err.eof ≠ Err.transport n :=
  c6_empty_refill_signals_eof _ _ ⟨10, 10, some 0, 1⟩ rfl rfl

/-- C3: against a server whose sizing call reports total 25 while later
page calls serve a 20-item collection and report total 20, the eager drain
terminates (within fuel 30, after only 3 transport calls), returns the 20
items, and its final state carries the latest observed total (20), not the
stale first-reported 25. -/
theorem c3_all_rechecks_total_and_terminates :
    cursor.all shrinkingTotalTransport 30 (newCursor 0) =
      some (.ok (List.range 20, ⟨0, 20, some 20, 3⟩)) ∧
    StoryService.List shrinkingTotalTransport 30 =
      some (.ok (List.range 20)) :=
  ⟨rfl, rfl⟩

/-- C4: eager `List` is all-or-nothing — against a server whose first page
of 10 items succeeds and whose second page fetch fails, the first page
fetch indeed succeeds with 10 items, yet `List` returns the transport
error and never a partial item list. -/
theorem c4_list_all_or_nothing :
    cursor.next failSecondPageTransport (newCursor 0) =
      .ok (List.range 10, ⟨0, 10, some 20, 2⟩) ∧
    StoryService.List failSecondPageTransport 10 =
      some (.error (Err.transport 7)) ∧
    ∀ l : List Nat,
      StoryService.List failSecondPageTransport 10 ≠ some (.ok l) := by
  refine ⟨rfl, rfl, fun l h => ?_⟩
  rw [show StoryService.List failSecondPageTransport 10 =
        some (.error (Err.transport 7)) from rfl] at h
  simp at h

/-- C8 counterexample: `Iterate` does not construct its cursor with the
fetch-all sentinel limit 0 — its limit is 10, and against a 35-item
collection its first fetch requests 10 items, not 35. -/
theorem c8_counterexample_iterate_limit :
    (StoryService.Iterate (Nat × Nat)).cur.limit = 10 ∧
    (StoryService.Iterate (Nat × Nat)).cur.limit ≠ 0 ∧
    cursor.next (probeTransport 35) (StoryService.Iterate (Nat × Nat)).cur =
      .ok ([(0, 10)], ⟨10, 10, some 35, 1⟩) :=
  ⟨rfl, by decide, rfl⟩

/-- C8 amended: `Iterate` constructs its cursor with limit `PageLimit`
(= 10), so against a 35-item collection its first fetch requests 10 items;
it is `List` that constructs its cursor with the fetch-all sentinel 0,
whose page fetch once the total is known issues a request sized to cover
all 35 items. -/
theorem c8_iterate_uses_pagelimit_list_uses_sentinel :
    (StoryService.Iterate (Nat × Nat)).cur.limit = PageLimit ∧
    PageLimit = 10 ∧
    cursor.next (probeTransport 35) (StoryService.Iterate (Nat × Nat)).cur =
      .ok ([(0, 10)], ⟨10, 10, some 35, 1⟩) ∧
    (newCursor 0).limit = 0 ∧
    cursor.next (probeTransport 35) (newCursor 0) =
      .ok ([(0, 35)], ⟨0, 1, some 35, 2⟩) :=
  ⟨rfl, rfl, rfl, rfl, rfl⟩

/-- Taking a prefix and then dropping as many elements as were taken
recovers the whole list, even when the requested prefix length exceeds the
list. -/
theorem take_append_drop_length_take {α : Type} (l : List α) (n : Nat) :
    l.take n ++ l.drop (l.take n).length = l := by
  rcases Nat.le_total n l.length with h | h
  · rw [List.length_take, Nat.min_eq_left h, List.take_append_drop]
  · rw [List.take_of_length_le h, List.drop_length, List.append_nil]

/-- One step of the page-fetch primitive against the capped server, from a
fetch-all cursor that already knows the total: the page is the slice at the
current offset truncated to the call's cap, and the offset advances by the
page length. -/
theorem chunk_next_eq {α : Type} (items : List α) (caps : Nat → Nat)
    (off k : Nat) :
    cursor.next (chunkTransport items caps) ⟨0, off, some items.length, k⟩ =
      .ok ((items.drop off).take (min items.length (caps k)),
        ⟨0, off + ((items.drop off).take (min items.length (caps k))).length,
         some items.length, k + 1⟩) := by
  simp [cursor.next, cursor.fetchPage, chunkTransport]

/-- The first page-fetch of a fresh fetch-all cursor against the capped
server: the sizing request (limit 0) returns an empty page and the true
total, after which the fetch proceeds exactly as from a cursor that already
knows the total. -/
theorem chunk_next_initial {α : Type} (items : List α) (caps : Nat → Nat) :
    cursor.next (chunkTransport items caps) (newCursor 0) =
      cursor.next (chunkTransport items caps) ⟨0, 0, some items.length, 1⟩ := by
  simp [cursor.next, newCursor, cursor.fetchPage, chunkTransport]

/-- The eager drain from a fresh fetch-all cursor coincides with the drain
from the cursor that has just learned the total via the sizing request. -/
theorem chunk_allAux_initial {α : Type} (items : List α) (caps : Nat → Nat)
    (fuel : Nat) (acc : List α) :
    cursor.allAux (chunkTransport items caps) (fuel + 1) (newCursor 0) acc =
      cursor.allAux (chunkTransport items caps) (fuel + 1)
        ⟨0, 0, some items.length, 1⟩ acc := by
  simp only [cursor.allAux]
  rw [chunk_next_initial]

/-- Loop invariant of the eager drain against the capped server: from any
offset, with enough fuel, the drain appends exactly the remainder of the
collection (in server order) to the accumulator. -/
theorem chunk_allAux_drains {α : Type} (items : List α) (caps : Nat → Nat)
    (hcaps : ∀ k, 1 ≤ caps k) :
    ∀ (fuel off k : Nat) (acc : List α),
      items.length - off < fuel →
      ∃ c' : cursor,
        cursor.allAux (chunkTransport items caps) fuel
            ⟨0, off, some items.length, k⟩ acc =
          some (.ok (acc ++ items.drop off, c')) := by
  intro fuel
  induction fuel with
  | zero => intro off k acc h; exact absurd h (by omega)
  | succ fuel ih =>
      intro off k acc hfuel
      simp only [cursor.allAux, chunk_next_eq, Option.getD_some]
      set page := (items.drop off).take (min items.length (caps k)) with hpg
      have hlen : page.length = min (min items.length (caps k))
          (items.length - off) := by
        rw [hpg, List.length_take, List.length_drop]
      by_cases hstop : items.length ≤ off + page.length
      · rw [if_pos hstop]
        have hpage : page = items.drop off := by
          rw [hpg]
          apply List.take_of_length_le
          rw [List.length_drop]
          omega
        rw [hpage]
        exact ⟨_, rfl⟩
      · rw [if_neg hstop]
        have hone := hcaps k
        have hpos : 1 ≤ page.length := by omega
        obtain ⟨c', hc⟩ := ih (off + page.length) (k + 1) (acc ++ page)
          (by omega)
        refine ⟨c', ?_⟩
        have h1 : (items.drop off).drop page.length =
            items.drop (off + page.length) := List.drop_drop _ _ _
        have hjoin : page ++ items.drop (off + page.length) =
            items.drop off := by
          rw [← h1, hpg]
          exact take_append_drop_length_take _ _
        rw [hc, List.append_assoc, hjoin]

/-- C1: for every page size `P > 0` and collection `items` (of any length
`T ≥ 0`), eager `List` against a server that splits the collection into
pages of size at most `P` (with at least one item per page while items
remain) returns exactly the whole collection in server-delivered order —
never re-sorted — for any sufficient fuel. -/
theorem c1_eager_list_returns_all_items {α : Type} (items : List α)
    (P : Nat) (caps : Nat → Nat) (fuel : Nat) (hP : 0 < P)
    (hcaps : ∀ k, 1 ≤ caps k ∧ caps k ≤ P)
    (hfuel : items.length < fuel) :
    StoryService.List (chunkTransport items caps) fuel =
      some (.ok items) := by
  obtain ⟨fuel, rfl⟩ : ∃ f, fuel = f + 1 := ⟨fuel - 1, by omega⟩
  obtain ⟨c', hc⟩ := chunk_allAux_drains items caps (fun k => (hcaps k).1)
    (fuel + 1) 0 1 [] (by omega)
  unfold StoryService.List cursor.all
  rw [chunk_allAux_initial, hc]
  simp

/-- Witness for C1: a five-item unsorted collection served in pages of at
most two items. -/
theorem c1_witness :
    StoryService.List (chunkTransport [5, 3, 9, 1, 7] (fun _ => 2)) 6 =
      some (.ok [5, 3, 9, 1, 7]) :=
  c1_eager_list_returns_all_items [5, 3, 9, 1, 7] 2 (fun _ => 2) 6
    (by decide) (fun _ => ⟨Nat.le_succ 1, Nat.le_refl 2⟩) (by decide)

/-- One page fetch of the honest server through a cursor with a positive
configured limit: the page is the slice of the collection at the cursor's
offset truncated to the limit, and the offset advances by the limit. -/
theorem honest_next_pos {α : Type} (items : List α) (lim off k : Nat)
    (tot : Option Nat) (h : lim ≠ 0) :
    cursor.next (honestTransport items) ⟨lim, off, tot, k⟩ =
      .ok ((items.drop off).take lim,
        ⟨lim, off + lim, some items.length, k + 1⟩) := by
  simp [cursor.next, cursor.fetchPage, honestTransport, h]

/-- The first page fetch of a fresh fetch-all cursor against the honest
server: the sizing request learns the total, then a single request sized to
the total retrieves the whole collection at once. -/
theorem honest_next_initial {α : Type} (items : List α) :
    cursor.next (honestTransport items) (newCursor 0) =
      .ok (items, ⟨0, items.length, some items.length, 2⟩) := by
  simp [cursor.next, newCursor, cursor.fetchPage, honestTransport]

/-- Eager `List` against the honest server returns the whole collection in
server order: the sizing request plus one fetch sized to the total. -/
theorem honest_list_eq {α : Type} (items : List α) (fuel : Nat)
    (h : 0 < fuel) :
    StoryService.List (honestTransport items) fuel = some (.ok items) := by
  obtain ⟨f, rfl⟩ : ∃ f, fuel = f + 1 := ⟨fuel - 1, by omega⟩
  unfold StoryService.List cursor.all
  simp [cursor.allAux, honest_next_initial]

/-- Loop invariant of the lazy drain against the honest server: whenever
the buffer followed by the collection from the cursor's offset onward is
exactly the not-yet-consumed remainder, draining completes the accumulated
prefix to the whole collection. -/
theorem honest_drain_inv {α : Type} (items : List α) :
    ∀ (fuel n lim off k : Nat) (tot : Option Nat) (buff : List α),
      lim ≠ 0 →
      buff ++ items.drop off = items.drop n →
      items.length - n < fuel →
      drainStories (honestTransport items) fuel
          ⟨⟨lim, off, tot, k⟩, buff⟩ (items.take n) =
        some (.ok items) := by
  intro fuel
  induction fuel with
  | zero => intro n lim off k tot buff _ _ h; exact absurd h (by omega)
  | succ fuel ih =>
      intro n lim off k tot buff hlim hinv hfuel
      cases buff with
      | cons x rest =>
          rw [List.cons_append] at hinv
          have hn : n < items.length := by
            by_contra hge
            rw [show items.drop n = [] from
              List.drop_eq_nil_iff.mpr (by omega)] at hinv
            exact (List.cons_ne_nil x _) hinv
          have htake : items.take (n + 1) = items.take n ++ [x] := by
            rw [List.take_add items n 1, ← hinv]
            simp
          have hinv' : rest ++ items.drop off = items.drop (n + 1) := by
            have hc := congrArg List.tail hinv
            rw [List.tail_cons, List.tail_drop] at hc
            exact hc
          simp only [drainStories, StoryCursor.Next]
          rw [← htake]
          exact ih (n + 1) lim off k tot rest hlim hinv' (by omega)
      | nil =>
          rw [List.nil_append] at hinv
          obtain ⟨l, rfl⟩ := Nat.exists_eq_succ_of_ne_zero hlim
          cases hd : items.drop n with
          | nil =>
              have hpage : (items.drop off).take (l + 1) = [] := by
                rw [hinv, hd, List.take_nil]
              have hNext : StoryCursor.Next (honestTransport items)
                  ⟨⟨l + 1, off, tot, k⟩, []⟩ =
                  (none, some Err.eof,
                    ⟨⟨l + 1, off + (l + 1), some items.length, k + 1⟩, []⟩) := by
                simp only [StoryCursor.Next,
                  honest_next_pos items (l + 1) off k tot (Nat.succ_ne_zero l),
                  hpage]
              simp only [drainStories, hNext]
              rw [List.take_of_length_le (List.drop_eq_nil_iff.mp hd)]
          | cons y ys =>
              have hn : n < items.length := by
                by_contra hge
                rw [List.drop_eq_nil_iff.mpr (by omega)] at hd
                exact (List.cons_ne_nil y ys) hd.symm
              have hpage : (items.drop off).take (l + 1) = y :: ys.take l := by
                rw [hinv, hd, List.take_succ_cons]
              have hNext : StoryCursor.Next (honestTransport items)
                  ⟨⟨l + 1, off, tot, k⟩, []⟩ =
                  (some y, none,
                    ⟨⟨l + 1, off + (l + 1), some items.length, k + 1⟩,
                     ys.take l⟩) := by
                simp only [StoryCursor.Next,
                  honest_next_pos items (l + 1) off k tot (Nat.succ_ne_zero l),
                  hpage]
              have htake : items.take (n + 1) = items.take n ++ [y] := by
                rw [List.take_add items n 1, hd]
                simp
              have hys : ys = items.drop (n + 1) := by
                have hc := congrArg List.tail hd
                rw [List.tail_drop, List.tail_cons] at hc
                exact hc.symm
              have hinv' : ys.take l ++ items.drop (off + (l + 1)) =
                  items.drop (n + 1) := by
                have hdd : items.drop (off + (l + 1)) =
                    (items.drop off).drop (l + 1) := (List.drop_drop _ _ _).symm
                rw [hdd, hinv, hd, List.drop_succ_cons, ← hys]
                exact List.take_append_drop l ys
              simp only [drainStories, hNext]
              rw [← htake]
              exact ih (n + 1) (l + 1) (off + (l + 1)) (k + 1)
                (some items.length) (ys.take l) (Nat.succ_ne_zero l) hinv'
                (by omega)

/-- C2: over the same simulated collection, the lazy typed cursor obtained
from `Iterate`, drained by repeated `Next` until end-of-sequence, yields
exactly the same ordered item sequence as a single eager `List` call. -/
theorem c2_lazy_iterate_matches_eager_list {α : Type} (items : List α)
    (fuel₁ fuel₂ : Nat) (h₁ : items.length < fuel₁) (h₂ : 0 < fuel₂) :
    drainStories (honestTransport items) fuel₁ (StoryService.Iterate α) [] =
      some (.ok items) ∧
    StoryService.List (honestTransport items) fuel₂ = some (.ok items) ∧
    drainStories (honestTransport items) fuel₁ (StoryService.Iterate α) [] =
      StoryService.List (honestTransport items) fuel₂ := by
  have hlazy : drainStories (honestTransport items) fuel₁
      (StoryService.Iterate α) [] = some (.ok items) := by
    have hmain := honest_drain_inv items fuel₁ 0 PageLimit 0 0 none []
      (by decide) (by simp) (by omega)
    simpa [StoryService.Iterate, newCursor] using hmain
  have heager := honest_list_eq items fuel₂ h₂
  exact ⟨hlazy, heager, by rw [hlazy, heager]⟩

/-- Witness for C2: a three-item unsorted collection, lazily drained and
eagerly listed. -/
theorem c2_witness :
    drainStories (honestTransport [3, 1, 2]) 4 (StoryService.Iterate Nat) [] =
      some (.ok [3, 1, 2]) ∧
    StoryService.List (honestTransport [3, 1, 2]) 1 = some (.ok [3, 1, 2]) ∧
    drainStories (honestTransport [3, 1, 2]) 4 (StoryService.Iterate Nat) [] =
      StoryService.List (honestTransport [3, 1, 2]) 1 :=
  c2_lazy_iterate_matches_eager_list [3, 1, 2] 4 1 (by decide) (by decide)

/-- C7: with an honest transport (so no error can interleave), once a typed
cursor constructed with a positive page limit — as every cursor built by
`Iterate` is — has signaled end-of-sequence, every further `Next` call
signals end-of-sequence again: never a different error, and the model is a
total function, so no panic. -/
theorem c7_eof_is_sticky {α : Type} (items : List α) (c c₁ : StoryCursor α)
    (hlim : c.cur.limit ≠ 0)
    (h : StoryCursor.Next (honestTransport items) c =
      (none, some Err.eof, c₁)) :
    ∃ c₂ : StoryCursor α, c₁.cur.limit ≠ 0 ∧
      StoryCursor.Next (honestTransport items) c₁ =
        (none, some Err.eof, c₂) := by
  obtain ⟨⟨lim, off, tot, k⟩, buff⟩ := c
  simp only at hlim h
  obtain ⟨l, rfl⟩ := Nat.exists_eq_succ_of_ne_zero hlim
  cases buff with
  | cons x rest => simp [StoryCursor.Next] at h
  | nil =>
      rw [show StoryCursor.Next (honestTransport items)
            ⟨⟨l + 1, off, tot, k⟩, []⟩ =
          match (items.drop off).take (l + 1) with
          | [] => (none, some Err.eof,
              ⟨⟨l + 1, off + (l + 1), some items.length, k + 1⟩, []⟩)
          | y :: rest => (some y, none,
              ⟨⟨l + 1, off + (l + 1), some items.length, k + 1⟩, rest⟩)
        from by
          simp only [StoryCursor.Next,
            honest_next_pos items (l + 1) off k tot (Nat.succ_ne_zero l)]] at h
      cases hd : items.drop off with
      | cons y ys => rw [hd, List.take_succ_cons] at h; simp at h
      | nil =>
          rw [hd, List.take_nil] at h
          have hc₁ : c₁ =
              ⟨⟨l + 1, off + (l + 1), some items.length, k + 1⟩, []⟩ := by
            have := congrArg (fun p => p.2.2) h
            exact this.symm
          subst hc₁
          have hd' : items.drop (off + (l + 1)) = [] := by
            rw [← List.drop_drop, hd, List.drop_nil]
          have hpage : (items.drop (off + (l + 1))).take (l + 1) = [] := by
            rw [hd', List.take_nil]
          refine ⟨⟨⟨l + 1, off + (l + 1) + (l + 1), some items.length,
            k + 2⟩, []⟩, Nat.succ_ne_zero l, ?_⟩
          simp only [StoryCursor.Next,
            honest_next_pos items (l + 1) (off + (l + 1)) (k + 1)
              (some items.length) (Nat.succ_ne_zero l), hpage]

/-- Witness for C7: the first `Next` on a fresh `Iterate` cursor over an
empty collection signals end-of-sequence; the theorem shows the following
call signals it again. -/
theorem c7_witness :
    ∃ c₂ : StoryCursor Nat,
      (⟨⟨10, 10, some 0, 1⟩, []⟩ : StoryCursor Nat).cur.limit ≠ 0 ∧
      StoryCursor.Next (honestTransport ([] : List Nat))
          ⟨⟨10, 10, some 0, 1⟩, []⟩ =
        (none, some Err.eof, c₂) :=
  c7_eof_is_sticky [] (StoryService.Iterate Nat) ⟨⟨10, 10, some 0, 1⟩, []⟩
    (by decide) rfl
